import Mathlib

/-!
Verification of the waveform-analyzer selection tool (`src/main.py`).

The program keeps a selection range `(start_idx, end_idx)` over a cleaned
numeric column, mutated by mouse handlers, and displays the arithmetic mean
of the selected inclusive slice.  Pointer coordinates (`event.xdata`,
`drag_offset`) are floats in the source; we embed them as rationals `ℚ`.
Data values are embedded as `ℚ` as well, and Python's `int()` truncation
toward zero is modelled by `pyInt`.
-/

/-- Python `int()` applied to a float: truncation toward zero. -/
def pyInt (q : ℚ) : ℤ := if q < 0 then ⌈q⌉ else ⌊q⌋

/-- `main.py` line 212: `new_x = max(0, min(len(self.col_data) - 1, event.xdata))`. -/
def clampX (len : ℕ) (x : ℚ) : ℚ := max 0 (min ((len : ℚ) - 1) x)

/-- `main.py` line 217 (start-edge drag):
`self.start_idx = min(int(new_x), self.end_idx - 1)`; returns the new
`(start_idx, end_idx)` pair given the clamped pointer position. -/
def setStart (len : ℕ) (_s e : ℤ) (x : ℚ) : ℤ × ℤ :=
  (min (pyInt (clampX len x)) (e - 1), e)

/-- `main.py` line 220 (end-edge drag):
`self.end_idx = max(int(new_x), self.start_idx + 1)`. -/
def setEnd (len : ℕ) (s _e : ℤ) (x : ℚ) : ℤ × ℤ :=
  (s, max (pyInt (clampX len x)) (s + 1))

/-- `main.py` lines 223-226 (whole-span drag): the new start is
`max(0, min(len(col_data) - (end_idx - start_idx), new_x - drag_offset))`,
the new end is `new_start + (end_idx - start_idx)`, both passed through
`int()`. -/
def moveBy (len : ℕ) (s e : ℤ) (x offset : ℚ) : ℤ × ℤ :=
  let newX := clampX len x
  let w : ℤ := e - s
  let ns : ℚ := max 0 (min ((len : ℚ) - (w : ℚ)) (newX - offset))
  (pyInt ns, pyInt (ns + (w : ℚ)))

/-- Selection-model state: length of the cleaned column data plus the
current selection indices. -/
structure SelState where
  len : ℕ
  start_idx : ℤ
  end_idx : ℤ
  deriving DecidableEq, Repr

/-- The Selection Model mutations of the spec: `setStart` (start-edge drag),
`setEnd` (end-edge drag), `moveBy` (whole-span drag, with the pointer
offset recorded at press time) and `reset` (column load). -/
inductive Mutation where
  | mSetStart (x : ℚ)
  | mSetEnd (x : ℚ)
  | mMoveBy (x offset : ℚ)
  | mReset (newLen : ℕ)
  deriving DecidableEq

/-- One raw index update: the three drag branches of `on_mouse_move`
(lines 215-226) and the reset in `load_column_data` (lines 119-125,
which early-returns when the cleaned column is empty). -/
def applyMutation (st : SelState) (m : Mutation) : SelState :=
  match m with
  | .mSetStart x =>
      let p := setStart st.len st.start_idx st.end_idx x
      { st with start_idx := p.1, end_idx := p.2 }
  | .mSetEnd x =>
      let p := setEnd st.len st.start_idx st.end_idx x
      { st with start_idx := p.1, end_idx := p.2 }
  | .mMoveBy x offset =>
      let p := moveBy st.len st.start_idx st.end_idx x offset
      { st with start_idx := p.1, end_idx := p.2 }
  | .mReset n =>
      if n = 0 then st
      else { len := n, start_idx := 0, end_idx := min 20000 ((n : ℤ) - 1) }

/-- `_draw_selection_rect`, lines 155-156: if `start_idx >= end_idx` the
redraw bumps `end_idx` to `start_idx + 1`.  It runs after every mutation
(called at line 136 after a load and at line 229 after a drag update). -/
def draw_selection_fix (st : SelState) : SelState :=
  if st.start_idx ≥ st.end_idx then { st with end_idx := st.start_idx + 1 } else st

/-- The full state effect of one Selection Model call as the handlers run it:
the raw index update followed by the redraw fixup.  A reset of an empty
column early-returns before any redraw. -/
def applyCall (st : SelState) (m : Mutation) : SelState :=
  match m with
  | .mReset n => if n = 0 then st else draw_selection_fix (applyMutation st (.mReset n))
  | _ => draw_selection_fix (applyMutation st m)

/-- The states visited after each call of a mutation sequence. -/
def selTrace (st : SelState) : List Mutation → List SelState
  | [] => []
  | m :: ms =>
      let st2 := applyCall st m
      st2 :: selTrace st2 ms

/-- The invariant that actually holds over reachable selection states:
`0 ≤ start < end ≤ len`.  (The claimed `end ≤ len - 1` fails: a whole-span
drag can park the range at `end = len`.) -/
def selInv (st : SelState) : Prop :=
  0 ≤ st.start_idx ∧ st.start_idx < st.end_idx ∧ st.end_idx ≤ (st.len : ℤ)

instance (st : SelState) : Decidable (selInv st) := by
  unfold selInv; infer_instance

/-- A mutation acceptable to the amended invariant claim: every column load
must bring at least two data points. -/
def goodMut : Mutation → Prop
  | .mReset n => 2 ≤ n
  | _ => True

instance (m : Mutation) : Decidable (goodMut m) := by
  cases m <;> (unfold goodMut; infer_instance)

/-- `np.mean`: sum divided by length. -/
def listMean (l : List ℚ) : ℚ := l.sum / (l.length : ℚ)

/-- Python slice `data[s : e + 1]` for `0 ≤ s ≤ e + 1`: drop `s`, take
`e + 1 - s`. -/
def sliceIncl (data : List ℚ) (s e : ℤ) : List ℚ :=
  (data.drop s.toNat).take (e + 1 - s).toNat

/-- `_calculate_mean`, lines 170-185: clamp `start` to `max(0, start_idx)`
and `end` to `min(len - 1, end_idx)`; if `start >= end` display the
placeholder (`none`), otherwise the mean of `col_data[start : end + 1]`. -/
def calculate_mean (data : List ℚ) (start_idx end_idx : ℤ) : Option ℚ :=
  let start := max 0 start_idx
  let e := min ((data.length : ℤ) - 1) end_idx
  if start ≥ e then none
  else some (listMean (sliceIncl data start e))

/-- The spec's wording for the mean result: the arithmetic mean of
`data[start .. end]` inclusive. -/
def meanSpec (data : List ℚ) (s e : ℤ) : ℚ := listMean (sliceIncl data s e)

/-- The character for decimal digit `d`. -/
def digitChar (d : ℕ) : Char := Char.ofNat (48 + d)

/-- Decimal digit characters of `n`, most significant first; the first
argument is fuel (`n` itself suffices). -/
def natCharsAux : ℕ → ℕ → List Char
  | 0, _ => []
  | fuel + 1, n => if n = 0 then [] else natCharsAux fuel (n / 10) ++ [digitChar (n % 10)]

/-- Decimal digit characters of `n`, with `0` printed as `"0"`. -/
def natChars (n : ℕ) : List Char := if n = 0 then ['0'] else natCharsAux n n

/-- Left-pad a digit string with zeros to 4 characters. -/
def pad4 (l : List Char) : List Char := List.replicate (4 - l.length) '0' ++ l

/-- The `f"{mean_val:.4f}"` format of line 185: a fixed 4-decimal rendering
of the mean, modelled over `ℚ` by rounding `q * 10000` to the nearest
integer. -/
def formatFixed4 (q : ℚ) : List Char :=
  let n : ℤ := round (q * 10000)
  let a : ℕ := n.natAbs
  (if n < 0 then ['-'] else []) ++ natChars (a / 10000) ++ '.' :: pad4 (natChars (a % 10000))

/-- The text held by `mean_var`: either the placeholder of line 179 or the
labelled 4-decimal mean of line 185. -/
def meanTextOf : Option ℚ → List Char
  | none => "选中区域平均值：--".toList
  | some q => "选中区域平均值：".toList ++ formatFixed4 q

/-- `leadsWith p l` is true when `p` is an initial segment of `l`. -/
def leadsWith : List Char → List Char → Bool
  | [], _ => true
  | _ :: _, [] => false
  | a :: p, b :: l => (a == b) && leadsWith p l

/-- Python's substring test `pat in text`. -/
def hasSub (pat : List Char) : List Char → Bool
  | [] => leadsWith pat []
  | a :: l => leadsWith pat (a :: l) || hasSub pat l

/-- Python's `text.split(c)` for a single-character separator. -/
def splitOnChar (c : Char) : List Char → List (List Char)
  | [] => [[]]
  | a :: l =>
      if a = c then [] :: splitOnChar c l
      else
        match splitOnChar c l with
        | [] => [[a]]
        | p :: ps => (a :: p) :: ps

/-- Python's `str.strip()`: drop whitespace from both ends. -/
def pyStrip (l : List Char) : List Char :=
  ((l.dropWhile Char.isWhitespace).reverse.dropWhile Char.isWhitespace).reverse

/-- Colour of the transient copy hint. -/
inductive HintColor where
  | red
  | green
  deriving DecidableEq

/-- Observable outcome of the copy button: the clipboard content, the hint
text and its colour. -/
structure CopyOutcome where
  clipboard : List Char
  copy_hint : List Char
  hint_color : HintColor
  deriving DecidableEq

/-- `copy_result_to_clipboard`, lines 238-265: if the displayed text
contains `"：--"` show the red "no valid data" hint and leave the clipboard
alone; otherwise copy `mean_text.split("：")[1].strip()` to the clipboard
and show the green success hint.  (The clipboard-failure `except` branch of
lines 267-272 is an external-API failure and is not modelled; Python's
`[1]` indexing is totalised with `getD` — both texts the program ever
displays contain a `：`, so the split always has a second part.) -/
def copy_result_to_clipboard (mean_text clipboard : List Char) : CopyOutcome :=
  if hasSub "：--".toList mean_text then
    { clipboard := clipboard, copy_hint := "暂无有效数据".toList, hint_color := .red }
  else
    let mean_value := pyStrip ((splitOnChar '：' mean_text)[1]?.getD [])
    { clipboard := mean_value, copy_hint := "复制成功".toList, hint_color := .green }

/-- The session fields touched by `load_column_data`: the cleaned column,
the selection indices and the displayed mean text. -/
structure SessionState where
  col_data : Option (List ℚ)
  start_idx : ℤ
  end_idx : ℤ
  mean_text : List Char
  deriving DecidableEq

/-- Whether a column load early-returned on an empty cleaned column
(line 120; the source calls `messagebox.warning`, which does not exist in
tkinter, so at runtime this branch raises `AttributeError` — either way
nothing past line 121 executes) or completed. -/
inductive LoadResult where
  | emptyWarned
  | ok
  deriving DecidableEq

/-- `load_column_data`, lines 108-142, state effect after a column pick:
line 118 stores the cleaned values BEFORE the emptiness check of line 119;
on a non-empty column lines 124-125 reset the range to
`(0, min(20000, len - 1))`, the redraw of line 136 applies the line-155
fixup, and line 139 recomputes the displayed mean. -/
def load_column_data (st : SessionState) (cleaned : List ℚ) : SessionState × LoadResult :=
  let st1 := { st with col_data := some cleaned }
  if cleaned.length = 0 then (st1, .emptyWarned)
  else
    let s : ℤ := 0
    let e : ℤ := min 20000 ((cleaned.length : ℤ) - 1)
    let e2 : ℤ := if s ≥ e then s + 1 else e
    ({ st1 with
        start_idx := s,
        end_idx := e2,
        mean_text := meanTextOf (calculate_mean cleaned s e2) }, .ok)

/-- The session state right after `__init__` (lines 17-23): no data,
`start_idx = 0`, `end_idx = 20000`, placeholder mean text. -/
def initState : SessionState :=
  { col_data := none, start_idx := 0, end_idx := 20000,
    mean_text := "选中区域平均值：--".toList }

/-- The three drag modes recorded in `self.drag_type`. -/
inductive DragKind where
  | dragStart
  | dragEnd
  | dragMove
  deriving DecidableEq

/-- The mutable state touched by the three mouse handlers. -/
structure AppState where
  col_data : Option (List ℚ)
  start_idx : ℤ
  end_idx : ℤ
  is_dragging : Bool
  drag_type : Option DragKind
  drag_offset : Option ℚ
  deriving DecidableEq

/-- A raw pointer event: `inaxes` is whether `event.inaxes == self.ax`,
`x` is `event.xdata`. -/
inductive Event where
  | press (inaxes : Bool) (x : ℚ)
  | move (inaxes : Bool) (x : ℚ)
  | release
  deriving DecidableEq

/-- One event dispatch: `on_mouse_press` (lines 187-204), `on_mouse_move`
(lines 206-231) and `on_mouse_release` (lines 233-236).  `drag_offset` is
only ever written by the whole-span press branch (line 204) and is never
cleared; in the move branch `st.drag_offset.getD 0` reads it (in every
reachable `dragMove` state it has been set by the press). -/
def step (st : AppState) (ev : Event) : AppState :=
  match ev with
  | .press inaxes x =>
      match st.col_data with
      | none => st
      | some _ =>
          if inaxes = false then st
          else if |x - (st.start_idx : ℚ)| < 1000 then
            { st with is_dragging := true, drag_type := some .dragStart }
          else if |x - (st.end_idx : ℚ)| < 1000 then
            { st with is_dragging := true, drag_type := some .dragEnd }
          else if (st.start_idx : ℚ) ≤ x ∧ x ≤ (st.end_idx : ℚ) then
            { st with
                is_dragging := true,
                drag_type := some .dragMove,
                drag_offset := some (x - (st.start_idx : ℚ)) }
          else st
  | .move inaxes x =>
      if st.is_dragging = false then st
      else
        match st.col_data with
        | none => st
        | some data =>
            if inaxes = false then st
            else
              let p : ℤ × ℤ :=
                match st.drag_type with
                | some .dragStart => setStart data.length st.start_idx st.end_idx x
                | some .dragEnd => setEnd data.length st.start_idx st.end_idx x
                | some .dragMove =>
                    moveBy data.length st.start_idx st.end_idx x (st.drag_offset.getD 0)
                | none => (st.start_idx, st.end_idx)
              let fixed := draw_selection_fix
                { len := data.length, start_idx := p.1, end_idx := p.2 }
              { st with start_idx := fixed.start_idx, end_idx := fixed.end_idx }
  | .release => { st with is_dragging := false, drag_type := none }

/-- A session that has already loaded the column `[1, 2]` with the default
selection and its displayed mean. -/
def c9PrevState : SessionState :=
  { col_data := some [1, 2],
    start_idx := 0,
    end_idx := 1,
    mean_text := meanTextOf (calculate_mean [1, 2] 0 1) }

/-- A mid-drag state over a 5-point column: the user pressed near the start
edge and is dragging it.  Reachable by loading `[1, 2, 3, 4, 5]` and
pressing at x = 0.5 inside the axes. -/
def c7DragState : AppState :=
  { col_data := some [1, 2, 3, 4, 5],
    start_idx := 0,
    end_idx := 4,
    is_dragging := true,
    drag_type := some DragKind.dragStart,
    drag_offset := none }

/-- An idle state over a 3-point column with the default selection `(0, 2)`:
the span is far narrower than twice the 1000-unit press tolerance. -/
def c6NarrowState : AppState :=
  { col_data := some [1, 2, 3],
    start_idx := 0,
    end_idx := 2,
    is_dragging := false,
    drag_type := none,
    drag_offset := none }

theorem pyInt_of_nonneg {q : ℚ} (h : 0 ≤ q) : pyInt q = ⌊q⌋ := by
  unfold pyInt
  rw [if_neg (not_lt.mpr h)]

theorem clampX_nonneg (len : ℕ) (x : ℚ) : 0 ≤ clampX len x := le_max_left 0 _

theorem clampX_le {len : ℕ} (x : ℚ) (h : 1 ≤ len) : clampX len x ≤ (len : ℚ) - 1 := by
  unfold clampX
  apply max_le
  · have : (1 : ℚ) ≤ (len : ℚ) := by exact_mod_cast h
    linarith
  · exact min_le_left _ _

theorem pyInt_clampX_nonneg (len : ℕ) (x : ℚ) : 0 ≤ pyInt (clampX len x) := by
  rw [pyInt_of_nonneg (clampX_nonneg len x)]
  exact Int.floor_nonneg.mpr (clampX_nonneg len x)

theorem pyInt_clampX_le {len : ℕ} (x : ℚ) (h : 1 ≤ len) :
    pyInt (clampX len x) ≤ (len : ℤ) - 1 := by
  rw [pyInt_of_nonneg (clampX_nonneg len x)]
  have h2 : clampX len x ≤ (((len : ℤ) - 1 : ℤ) : ℚ) := by
    push_cast
    exact clampX_le x h
  calc ⌊clampX len x⌋ ≤ ⌊(((len : ℤ) - 1 : ℤ) : ℚ)⌋ := Int.floor_le_floor h2
    _ = (len : ℤ) - 1 := Int.floor_intCast _

/-- What lines 223-226 guarantee in general: starting from a valid range,
a whole-span drag keeps `start` in `[0, len - width]`, translates `end`
rigidly (`end = start + width`), and in particular `end ≤ len` — but it
can reach `end = len`, one past the claimed `len - 1` bound.  When the
offset pointer target lies inside `[0, len - width]` the new start is its
floor. -/
theorem moveBy_spec {len : ℕ} {s e : ℤ} (x offset : ℚ)
    (hs : 0 ≤ s) (hse : s < e) (he : e ≤ (len : ℤ)) :
    0 ≤ (moveBy len s e x offset).1 ∧
    (moveBy len s e x offset).1 ≤ (len : ℤ) - (e - s) ∧
    (moveBy len s e x offset).2 = (moveBy len s e x offset).1 + (e - s) ∧
    (moveBy len s e x offset).2 ≤ (len : ℤ) ∧
    (0 ≤ clampX len x - offset → clampX len x - offset ≤ (len : ℚ) - ((e - s : ℤ) : ℚ) →
      (moveBy len s e x offset).1 = ⌊clampX len x - offset⌋) := by
  unfold moveBy
  set w : ℤ := e - s with hw
  have hw1 : 1 ≤ w := by omega
  have hwlen : w ≤ (len : ℤ) := by omega
  set ns : ℚ := max 0 (min ((len : ℚ) - (w : ℚ)) (clampX len x - offset)) with hns
  have hns0 : 0 ≤ ns := le_max_left 0 _
  have hnsle : ns ≤ (len : ℚ) - (w : ℚ) := by
    apply max_le
    · have : (w : ℚ) ≤ (len : ℚ) := by exact_mod_cast hwlen
      linarith
    · exact min_le_left _ _
  have h1 : pyInt ns = ⌊ns⌋ := pyInt_of_nonneg hns0
  have h2 : pyInt (ns + (w : ℚ)) = ⌊ns⌋ + w := by
    rw [pyInt_of_nonneg (by positivity), Int.floor_add_int]
  have hfl0 : 0 ≤ ⌊ns⌋ := Int.floor_nonneg.mpr hns0
  have hfle : ⌊ns⌋ ≤ (len : ℤ) - w := by
    have : ns ≤ (((len : ℤ) - w : ℤ) : ℚ) := by push_cast; linarith
    calc ⌊ns⌋ ≤ ⌊(((len : ℤ) - w : ℤ) : ℚ)⌋ := Int.floor_le_floor this
      _ = (len : ℤ) - w := Int.floor_intCast _
  refine ⟨by simpa [h1] using hfl0, by simpa [h1] using hfle, by simp [h1, h2], ?_, ?_⟩
  · simp only [h2]
    omega
  · intro hlo hhi
    simp only [h1]
    congr 1
    rw [hns, min_eq_right hhi, max_eq_right hlo]

/-- Lines 215-217: starting from a valid range, a start-edge drag leaves
`0 ≤ start < end` with `end` unchanged. -/
theorem setStart_spec {len : ℕ} {s e : ℤ} (x : ℚ)
    (hs : 0 ≤ s) (hse : s < e) (he : e ≤ (len : ℤ)) :
    0 ≤ (setStart len s e x).1 ∧ (setStart len s e x).1 < e ∧
    (setStart len s e x).2 = e := by
  have hlen : 1 ≤ len := by omega
  unfold setStart
  refine ⟨le_min (pyInt_clampX_nonneg len x) (by omega), ?_, rfl⟩
  have : min (pyInt (clampX len x)) (e - 1) ≤ e - 1 := min_le_right _ _
  omega

/-- Lines 218-220: starting from a valid range, an end-edge drag leaves
`start < end ≤ len` with `start` unchanged. -/
theorem setEnd_spec {len : ℕ} {s e : ℤ} (x : ℚ)
    (hs : 0 ≤ s) (hse : s < e) (he : e ≤ (len : ℤ)) :
    (setEnd len s e x).1 = s ∧ s < (setEnd len s e x).2 ∧
    (setEnd len s e x).2 ≤ (len : ℤ) := by
  have hlen : 1 ≤ len := by omega
  unfold setEnd
  refine ⟨rfl, lt_max_of_lt_right (by omega), max_le ?_ (by omega)⟩
  have := pyInt_clampX_le x hlen
  omega

/-- The redraw fixup of lines 155-156 never fires on a state satisfying the
invariant. -/
theorem draw_fix_of_inv {t : SelState} (h : selInv t) : draw_selection_fix t = t := by
  unfold draw_selection_fix
  rw [if_neg]
  exact not_le.mpr h.2.1

/-- A column load of length ≥ 2 establishes the amended invariant
`0 ≤ start < end ≤ len` from any prior state. -/
theorem reset_establishes (st : SelState) (n : ℕ) (hn : 2 ≤ n) :
    selInv (applyCall st (.mReset n)) := by
  have hne : ¬ n = 0 := by omega
  have hinv : selInv (applyMutation st (.mReset n)) := by
    simp only [applyMutation, if_neg hne, selInv]
    refine ⟨le_refl 0, lt_min (by norm_num) (by omega), ?_⟩
    have : min (20000 : ℤ) ((n : ℤ) - 1) ≤ (n : ℤ) - 1 := min_le_right _ _
    omega
  have hcall : applyCall st (.mReset n)
      = draw_selection_fix (applyMutation st (.mReset n)) := by
    simp only [applyCall, if_neg hne]
  rw [hcall, draw_fix_of_inv hinv]
  exact hinv

/-- Every good call (drag mutation, or a column load of length ≥ 2)
preserves the amended invariant `0 ≤ start < end ≤ len`. -/
theorem applyCall_preserves (st : SelState) (m : Mutation)
    (hinv : selInv st) (hm : goodMut m) : selInv (applyCall st m) := by
  obtain ⟨h0, hlt, hle⟩ := hinv
  cases m with
  | mSetStart x =>
      obtain ⟨a, b, c⟩ :=
        @setStart_spec st.len st.start_idx st.end_idx x h0 hlt hle
      have hmut : selInv (applyMutation st (.mSetStart x)) := by
        simp only [applyMutation, selInv]
        exact ⟨a, by omega, by omega⟩
      have : applyCall st (.mSetStart x)
          = draw_selection_fix (applyMutation st (.mSetStart x)) := rfl
      rw [this, draw_fix_of_inv hmut]
      exact hmut
  | mSetEnd x =>
      obtain ⟨a, b, c⟩ :=
        @setEnd_spec st.len st.start_idx st.end_idx x h0 hlt hle
      have hmut : selInv (applyMutation st (.mSetEnd x)) := by
        simp only [applyMutation, selInv]
        exact ⟨by omega, by omega, by omega⟩
      have : applyCall st (.mSetEnd x)
          = draw_selection_fix (applyMutation st (.mSetEnd x)) := rfl
      rw [this, draw_fix_of_inv hmut]
      exact hmut
  | mMoveBy x offset =>
      obtain ⟨a, b, c, d, -⟩ :=
        @moveBy_spec st.len st.start_idx st.end_idx x offset h0 hlt hle
      have hmut : selInv (applyMutation st (.mMoveBy x offset)) := by
        simp only [applyMutation, selInv]
        exact ⟨a, by omega, by omega⟩
      have : applyCall st (.mMoveBy x offset)
          = draw_selection_fix (applyMutation st (.mMoveBy x offset)) := rfl
      rw [this, draw_fix_of_inv hmut]
      exact hmut
  | mReset n => exact reset_establishes st n hm

/-- Invariant propagation along a trace of good mutations. -/
theorem selTrace_inv (ms : List Mutation) (st : SelState)
    (hinv : selInv st) (hms : ∀ m ∈ ms, goodMut m) :
    ∀ t ∈ selTrace st ms, selInv t := by
  induction ms generalizing st with
  | nil => intro t ht; simp [selTrace] at ht
  | cons m ms ih =>
      intro t ht
      have hstep : selInv (applyCall st m) :=
        applyCall_preserves st m hinv (hms m (by simp))
      simp only [selTrace, List.mem_cons] at ht
      rcases ht with rfl | ht
      · exact hstep
      · exact ih (applyCall st m) hstep (fun m hm => hms m (by simp [hm])) t ht

/-- C1, counterexample: the claimed invariant `0 ≤ start < end ≤ length - 1`
fails after a whole-span drag.  Loading a 3000-point column resets the
selection to `(0, 2999)`; a press at `x = 1500` (≥ 1000 from both edges,
inside the span) starts a whole-span drag recording offset 1500, and a move
to `x = 2999` sets the range to `(1, 3000)`: the clamp at line 223 bounds
the new start by `len - width`, not `len - 1 - width`, so `end_idx` lands
at `length`, violating `end ≤ length - 1`. -/
theorem c1_invariant_cex :
    (applyCall (applyCall { len := 0, start_idx := 0, end_idx := 20000 }
        (Mutation.mReset 3000)) (Mutation.mMoveBy 2999 1500)).end_idx = 3000 ∧
    (applyCall (applyCall { len := 0, start_idx := 0, end_idx := 20000 }
        (Mutation.mReset 3000)) (Mutation.mMoveBy 2999 1500)).len = 3000 ∧
    ¬ ((applyCall (applyCall { len := 0, start_idx := 0, end_idx := 20000 }
        (Mutation.mReset 3000)) (Mutation.mMoveBy 2999 1500)).end_idx ≤ (3000 : ℤ) - 1) := by
  norm_num [applyCall, applyMutation, draw_selection_fix, moveBy, clampX, pyInt,
    max_def, min_def]

/-- C1 (amended): for every sequence of Selection Model mutations beginning
with a column load (`reset`) of length ≥ 2, and in which every further
column load also has length ≥ 2, the invariant `0 ≤ start < end ≤ length`
holds after every call (the original claim's bound `end ≤ length - 1` is
weakened to `end ≤ length`, which a whole-span drag can attain, and
degenerate loads of length ≤ 1 are excluded). -/
theorem c1_invariant_amended (firstLen : ℕ) (ms : List Mutation) (st : SelState)
    (h1 : 2 ≤ firstLen) (h2 : ∀ m ∈ ms, goodMut m) :
    ∀ t ∈ selTrace st (Mutation.mReset firstLen :: ms), selInv t := by
  intro t ht
  simp only [selTrace, List.mem_cons] at ht
  rcases ht with rfl | ht
  · exact reset_establishes st firstLen h1
  · exact selTrace_inv ms _ (reset_establishes st firstLen h1) h2 t ht

/-- Witness for the amended C1 invariant: load a 5-point column, then drag
the start edge to x = 3; the resulting state `(3, 4)` satisfies the
invariant. -/
theorem c1_invariant_amended_witness :
    selInv (applyCall (applyCall { len := 0, start_idx := 0, end_idx := 20000 }
      (Mutation.mReset 5)) (Mutation.mSetStart 3)) := by
  refine c1_invariant_amended 5 [Mutation.mSetStart 3]
    { len := 0, start_idx := 0, end_idx := 20000 } (by norm_num) ?_ _ ?_
  · intro m hm
    simp only [List.mem_singleton] at hm
    subst hm
    trivial
  · simp [selTrace]

/-- C3, counterexample: the claim says that after a whole-span move both
`start` and `end` lie in `[0, length - 1]`.  With a 3000-point column,
range `(0, 2999)`, pointer at 2999 and recorded offset 1500 (a press at
x = 1500), the move yields `(1, 3000)`: `end = 3000` is outside
`[0, 2999]`. -/
theorem c3_moveBy_cex :
    (moveBy 3000 0 2999 2999 1500).2 = 3000 ∧
    ¬ ((moveBy 3000 0 2999 2999 1500).2 ≤ (3000 : ℤ) - 1) := by
  norm_num [moveBy, clampX, pyInt, max_def, min_def]

/-- C3 (amended): starting from a valid range, a whole-span move preserves
the width, clamps the new start into `[0, length - width]` (so
`start ≤ length - 1`), and leaves `end ≤ length` — `end` may reach
`length` itself, one past the claimed `length - 1` bound; when the
offset-corrected pointer target already lies within `[0, length - width]`
the new start is exactly its floor (start becomes the target). -/
theorem c3_moveBy_clamped (len : ℕ) (s e : ℤ) (x offset : ℚ)
    (hs : 0 ≤ s) (hse : s < e) (he : e ≤ (len : ℤ)) :
    0 ≤ (moveBy len s e x offset).1 ∧
    (moveBy len s e x offset).1 + (e - s) = (moveBy len s e x offset).2 ∧
    (moveBy len s e x offset).1 ≤ (len : ℤ) - 1 ∧
    (moveBy len s e x offset).2 ≤ (len : ℤ) ∧
    (0 ≤ clampX len x - offset → clampX len x - offset ≤ (len : ℚ) - ((e - s : ℤ) : ℚ) →
      (moveBy len s e x offset).1 = ⌊clampX len x - offset⌋) := by
  obtain ⟨a, b, c, d, f⟩ := moveBy_spec x offset hs hse he
  exact ⟨a, by omega, by omega, d, f⟩

/-- Witness for the amended C3: the concrete whole-span move of the
counterexample satisfies the amended bounds. -/
theorem c3_moveBy_clamped_witness :
    0 ≤ (moveBy 3000 0 2999 2999 1500).1 ∧
    (moveBy 3000 0 2999 2999 1500).1 + (2999 - 0) = (moveBy 3000 0 2999 2999 1500).2 ∧
    (moveBy 3000 0 2999 2999 1500).1 ≤ (3000 : ℤ) - 1 ∧
    (moveBy 3000 0 2999 2999 1500).2 ≤ (3000 : ℤ) ∧
    (0 ≤ clampX 3000 2999 - 1500 →
      clampX 3000 2999 - 1500 ≤ (3000 : ℚ) - ((2999 - 0 : ℤ) : ℚ) →
      (moveBy 3000 0 2999 2999 1500).1 = ⌊clampX 3000 2999 - (1500 : ℚ)⌋) :=
  c3_moveBy_clamped 3000 0 2999 2999 1500 (by norm_num) (by norm_num) (by norm_num)

/-- C4 (confirmed): a whole-span drag step never changes the width
`end - start` of a (weakly ordered) selection range, whatever the pointer
position and recorded offset. -/
theorem c4_moveBy_width_invariant (len : ℕ) (s e : ℤ) (x offset : ℚ) (h : s ≤ e) :
    (moveBy len s e x offset).2 - (moveBy len s e x offset).1 = e - s := by
  unfold moveBy
  dsimp only
  set w : ℤ := e - s with hw
  have hw0 : 0 ≤ w := by omega
  set ns : ℚ := max 0 (min ((len : ℚ) - (w : ℚ)) (clampX len x - offset)) with hns
  have hns0 : 0 ≤ ns := le_max_left 0 _
  have hnsw : 0 ≤ ns + (w : ℚ) := by
    have : (0 : ℚ) ≤ (w : ℚ) := by exact_mod_cast hw0
    linarith
  rw [pyInt_of_nonneg hns0, pyInt_of_nonneg hnsw, Int.floor_add_int]
  omega

/-- Witness for C4: the concrete whole-span move of the counterexamples
above preserves the width 2999. -/
theorem c4_moveBy_width_invariant_witness :
    (moveBy 3000 0 2999 2999 1500).2 - (moveBy 3000 0 2999 2999 1500).1 = 2999 - 0 :=
  c4_moveBy_width_invariant 3000 0 2999 2999 1500 (by norm_num)

/-- C5, counterexample: the claim says `reset` fails with `InvalidLength`
(refusing to establish a selection) whenever `length ≤ 1`, but loading a
one-point column `[7]` completes normally: the emptiness check of line 119
only catches `length = 0`, so the load returns `ok` and establishes the
degenerate selection `(0, min(20000, 0)) = (0, 0)`, which the redraw fixup
of line 155 then turns into `(0, 1)` — an out-of-range selection, not a
failure. -/
theorem c5_invalid_length_cex :
    (load_column_data initState [7]).2 = LoadResult.ok ∧
    (load_column_data initState [7]).1.start_idx = 0 ∧
    (load_column_data initState [7]).1.end_idx = 1 := by
  norm_num [load_column_data, initState, min_def]

/-- C5 (amended): `reset` on a column load sets `start = 0` and
`end = min(20000, length - 1)`, and it early-returns with a warning attempt
only when `length = 0` (leaving the selection untouched but overwriting
`col_data`); for `length = 1` it does not fail — it establishes `(0, 0)`,
bumped to `(0, 1)` by the redraw fixup. -/
theorem c5_reset_amended (st : SessionState) (cleaned : List ℚ) :
    (cleaned.length = 0 →
      load_column_data st cleaned
        = ({ st with col_data := some cleaned }, LoadResult.emptyWarned)) ∧
    (2 ≤ cleaned.length →
      (load_column_data st cleaned).2 = LoadResult.ok ∧
      (load_column_data st cleaned).1.col_data = some cleaned ∧
      (load_column_data st cleaned).1.start_idx = 0 ∧
      (load_column_data st cleaned).1.end_idx = min 20000 ((cleaned.length : ℤ) - 1)) ∧
    (cleaned.length = 1 →
      (load_column_data st cleaned).2 = LoadResult.ok ∧
      (load_column_data st cleaned).1.start_idx = 0 ∧
      (load_column_data st cleaned).1.end_idx = 1) := by
  refine ⟨?_, ?_, ?_⟩
  · intro h
    simp [load_column_data, h]
  · intro h
    have h0 : ¬ cleaned.length = 0 := by omega
    have hmin : ¬ ((0 : ℤ) ≥ min 20000 ((cleaned.length : ℤ) - 1)) := by
      have h2 : (2 : ℤ) ≤ (cleaned.length : ℤ) := by exact_mod_cast h
      rw [not_le, lt_min_iff]
      constructor <;> omega
    simp [load_column_data, h0, hmin]
  · intro h
    have h0 : ¬ cleaned.length = 0 := by omega
    have hlen : (cleaned.length : ℤ) = 1 := by exact_mod_cast h
    have hmin : min (20000 : ℤ) ((cleaned.length : ℤ) - 1) = 0 := by
      rw [hlen]
      norm_num
    simp [load_column_data, h0, hmin]

/-- Witness for the amended C5: loading `[1, 2, 3]` succeeds with the
selection `(0, min(20000, 2))`. -/
theorem c5_reset_amended_witness :
    (load_column_data initState [1, 2, 3]).2 = LoadResult.ok ∧
    (load_column_data initState [1, 2, 3]).1.col_data = some [1, 2, 3] ∧
    (load_column_data initState [1, 2, 3]).1.start_idx = 0 ∧
    (load_column_data initState [1, 2, 3]).1.end_idx
      = min 20000 ((([1, 2, 3] : List ℚ).length : ℤ) - 1) :=
  (c5_reset_amended initState [1, 2, 3]).2.1 (by norm_num)

/-- C9: evaluating `load_column_data` at the failing input — a session that
holds column `[1, 2]` and then picks a column whose cleaned values are
empty.  The selection range and displayed mean are indeed left unchanged,
but line 118 has already overwritten `col_data` with the empty array before
the check fires, contradicting the claim that the previously loaded column
data is left unchanged (and the warning itself is a call to the nonexistent
`messagebox.warning`, which raises `AttributeError` at runtime). -/
theorem c9_empty_column_divergence :
    (load_column_data c9PrevState []).2 = LoadResult.emptyWarned ∧
    (load_column_data c9PrevState []).1.col_data = some [] ∧
    (load_column_data c9PrevState []).1.col_data ≠ c9PrevState.col_data ∧
    (load_column_data c9PrevState []).1.start_idx = c9PrevState.start_idx ∧
    (load_column_data c9PrevState []).1.end_idx = c9PrevState.end_idx ∧
    (load_column_data c9PrevState []).1.mean_text = c9PrevState.mean_text := by
  refine ⟨rfl, rfl, ?_, rfl, rfl, rfl⟩
  intro h
  have h2 : some ([] : List ℚ) = some [(1 : ℚ), 2] := h
  injection h2 with h3
  exact List.cons_ne_nil _ _ h3.symm

/-- C7, counterexample: the claim says the drag state is reset to inactive
whenever the pointer leaves the plotting area mid-drag, but a move event
with the pointer outside the axes is a complete no-op (line 208's guard
just returns): from a mid-drag state the handler leaves `is_dragging`
true, so the drag is still active, not `Idle`. -/
theorem c7_leave_area_cex :
    step c7DragState (Event.move false 2) = c7DragState ∧
    c7DragState.is_dragging = true := by
  constructor
  · rfl
  · rfl

/-- C7 (amended): a `Release` in any state sets the drag state to inactive
(`is_dragging = false`, `drag_type = None`) — but retains the recorded
offset rather than clearing it — and a `Release` in `Idle` is therefore a
no-op; a `Move` with the pointer outside the plotting area is ignored
entirely (the whole state, drag fields included, is unchanged, and a drag
in progress stays active). -/
theorem c7_release_and_leave_amended (st : AppState) :
    (∀ x : ℚ, step st (Event.move false x) = st) ∧
    step st Event.release = { st with is_dragging := false, drag_type := none } := by
  refine ⟨?_, rfl⟩
  intro x
  cases hd : st.is_dragging with
  | false => simp [step, hd]
  | true =>
      cases hc : st.col_data with
      | none => simp [step, hd, hc]
      | some data => simp [step, hd, hc]

/-- C6 (confirmed): press hit-testing evaluates the edge checks before the
interior check with the fixed tolerance 1000: within 1000 of `start` the
press enters `DraggingStart`; otherwise within 1000 of `end` it enters
`DraggingEnd`; otherwise inside `[start, end]` it enters `DraggingWhole`
recording the offset `x - start`; otherwise it is a no-op.  In particular
when the press is within tolerance of both edges the result is
`DraggingStart`. -/
theorem c6_hit_test (st : AppState) (x : ℚ) (data : List ℚ)
    (hd : st.col_data = some data) :
    (|x - (st.start_idx : ℚ)| < 1000 →
      step st (Event.press true x)
        = { st with is_dragging := true, drag_type := some DragKind.dragStart }) ∧
    (¬ |x - (st.start_idx : ℚ)| < 1000 → |x - (st.end_idx : ℚ)| < 1000 →
      step st (Event.press true x)
        = { st with is_dragging := true, drag_type := some DragKind.dragEnd }) ∧
    (¬ |x - (st.start_idx : ℚ)| < 1000 → ¬ |x - (st.end_idx : ℚ)| < 1000 →
      (st.start_idx : ℚ) ≤ x → x ≤ (st.end_idx : ℚ) →
      step st (Event.press true x)
        = { st with
              is_dragging := true,
              drag_type := some DragKind.dragMove,
              drag_offset := some (x - (st.start_idx : ℚ)) }) ∧
    (¬ |x - (st.start_idx : ℚ)| < 1000 → ¬ |x - (st.end_idx : ℚ)| < 1000 →
      ¬ ((st.start_idx : ℚ) ≤ x ∧ x ≤ (st.end_idx : ℚ)) →
      step st (Event.press true x) = st) ∧
    (|x - (st.start_idx : ℚ)| < 1000 ∧ |x - (st.end_idx : ℚ)| < 1000 →
      step st (Event.press true x)
        = { st with is_dragging := true, drag_type := some DragKind.dragStart }) := by
  refine ⟨?_, ?_, ?_, ?_, ?_⟩
  · intro h1
    simp [step, hd, h1]
  · intro h1 h2
    simp [step, hd, h1, h2]
  · intro h1 h2 h3 h4
    simp [step, hd, h1, h2, h3, h4]
  · intro h1 h2 h3
    simp [step, hd, h1, h2, h3]
  · intro h
    simp [step, hd, h.1]

/-- Witness for C6: on a 3-point column with selection `(0, 2)` — width far
below twice the tolerance — a press at x = 1 is within 1000 of both edges
and resolves to `DraggingStart`. -/
theorem c6_hit_test_witness :
    step c6NarrowState (Event.press true 1)
      = { c6NarrowState with is_dragging := true, drag_type := some DragKind.dragStart } :=
  (c6_hit_test c6NarrowState 1 [1, 2, 3] rfl).2.2.2.2
    ⟨by norm_num [c6NarrowState], by norm_num [c6NarrowState]⟩

/-- The 4-decimal rendering of the mean 3 is the string `3.0000`. -/
theorem formatFixed4_three : formatFixed4 3 = "3.0000".toList := by
  have h1 : round ((3 : ℚ) * 10000) = 30000 := by
    rw [round_eq]
    norm_num
  simp only [formatFixed4, h1]
  decide

/-- C2 (confirmed): `_calculate_mean` clamps `start` to `max(0, start_idx)`
and `end` to `min(length - 1, end_idx)`, returns the "no data" sentinel
when the clamped `start ≥ end`, and otherwise the arithmetic mean of
`data[start .. end]` inclusive; in particular for the column
`[1, 2, 3, 4, 5]` with selection `(0, 4)` the mean is 3, displayed as
`3.0000`. -/
theorem c2_mean_correct :
    (∀ (data : List ℚ) (s e : ℤ),
      calculate_mean data s e =
        if max 0 s ≥ min ((data.length : ℤ) - 1) e then none
        else some (meanSpec data (max 0 s) (min ((data.length : ℤ) - 1) e))) ∧
    calculate_mean [1, 2, 3, 4, 5] 0 4 = some 3 ∧
    meanTextOf (calculate_mean [1, 2, 3, 4, 5] 0 4) = "选中区域平均值：3.0000".toList := by
  have h2 : calculate_mean [1, 2, 3, 4, 5] 0 4 = some 3 := by
    have hsl : sliceIncl [1, 2, 3, 4, 5] 0 4 = [(1 : ℚ), 2, 3, 4, 5] := by
      unfold sliceIncl
      have ht : ((4 : ℤ) + 1 - 0).toNat = 5 := rfl
      have hz : ((0 : ℤ)).toNat = 0 := rfl
      rw [ht, hz, List.drop_zero, List.take_of_length_le (by norm_num)]
    have hm : listMean [(1 : ℚ), 2, 3, 4, 5] = 3 := by
      norm_num [listMean]
    simp only [calculate_mean]
    norm_num [hsl, hm, max_def, min_def]
  refine ⟨fun data s e => rfl, h2, ?_⟩
  rw [h2]
  show "选中区域平均值：".toList ++ formatFixed4 3 = _
  rw [formatFixed4_three]
  decide

/-- C10 (confirmed): the mean computation is total — for every pair of
integer indices, including out-of-range ones such as the pre-load default
`end_idx = 20000`, it returns either the placeholder or the mean of the
clamped slice `data[start .. end]`, and in the latter case the clamped
bounds satisfy `0 ≤ start < end ≤ length - 1` and the slice really has
`end + 1 - start` elements (no out-of-bounds access, never an empty
slice). -/
theorem c10_mean_total (data : List ℚ) (start_idx end_idx : ℤ) :
    calculate_mean data start_idx end_idx = none ∨
    (0 ≤ max 0 start_idx ∧
     max 0 start_idx < min ((data.length : ℤ) - 1) end_idx ∧
     min ((data.length : ℤ) - 1) end_idx ≤ (data.length : ℤ) - 1 ∧
     ((sliceIncl data (max 0 start_idx) (min ((data.length : ℤ) - 1) end_idx)).length : ℤ)
       = min ((data.length : ℤ) - 1) end_idx + 1 - max 0 start_idx ∧
     0 < (sliceIncl data (max 0 start_idx) (min ((data.length : ℤ) - 1) end_idx)).length ∧
     calculate_mean data start_idx end_idx
       = some (listMean
           (sliceIncl data (max 0 start_idx) (min ((data.length : ℤ) - 1) end_idx)))) := by
  set s : ℤ := max 0 start_idx with hs
  set e : ℤ := min ((data.length : ℤ) - 1) end_idx with he
  by_cases hcond : s ≥ e
  · left
    simp only [calculate_mean]
    rw [if_pos hcond]
  · right
    have h0 : 0 ≤ s := le_max_left _ _
    have hne : e ≤ (data.length : ℤ) - 1 := min_le_left _ _
    have hlt : s < e := lt_of_not_ge hcond
    have hlen : (sliceIncl data s e).length = (e + 1 - s).toNat := by
      unfold sliceIncl
      rw [List.length_take, List.length_drop]
      omega
    refine ⟨h0, hlt, hne, ?_, ?_, ?_⟩
    · rw [hlen]
      omega
    · rw [hlen]
      omega
    · simp only [calculate_mean]
      rw [if_neg hcond]

theorem leadsWith_iff (p : List Char) : ∀ l, leadsWith p l = true ↔ ∃ r, l = p ++ r := by
  induction p with
  | nil =>
      intro l
      simp [leadsWith]
  | cons a p ih =>
      intro l
      cases l with
      | nil =>
          simp [leadsWith]
      | cons b l =>
          simp only [leadsWith, Bool.and_eq_true, beq_iff_eq, ih l, List.cons_append,
            List.cons.injEq]
          constructor
          · rintro ⟨rfl, r, rfl⟩
            exact ⟨r, rfl, rfl⟩
          · rintro ⟨r, rfl, rfl⟩
            exact ⟨rfl, r, rfl⟩

theorem hasSub_iff (p : List Char) : ∀ l, hasSub p l = true ↔ ∃ l₁ l₂, l = l₁ ++ (p ++ l₂) := by
  intro l
  induction l with
  | nil =>
      rw [hasSub, leadsWith_iff]
      constructor
      · rintro ⟨r, hr⟩
        exact ⟨[], r, by simpa using hr⟩
      · rintro ⟨l₁, l₂, h⟩
        rcases List.append_eq_nil.mp h.symm with ⟨h1, h2⟩
        rcases List.append_eq_nil.mp h2 with ⟨h3, h4⟩
        exact ⟨[], by simp [h3, h4]⟩
  | cons a l ih =>
      rw [hasSub, Bool.or_eq_true, leadsWith_iff, ih]
      constructor
      · rintro (⟨r, hr⟩ | ⟨l₁, l₂, rfl⟩)
        · exact ⟨[], r, by simpa using hr⟩
        · exact ⟨a :: l₁, l₂, rfl⟩
      · rintro ⟨l₁, l₂, h⟩
        cases l₁ with
        | nil =>
            left
            exact ⟨l₂, by simpa using h⟩
        | cons b l₁ =>
            right
            rw [List.cons_append] at h
            injection h with h1 h2
            exact ⟨l₁, l₂, h2⟩

theorem digitChar_val {d : ℕ} (hd : d < 10) :
    digitChar d ≠ '-' ∧ digitChar d ≠ '：' ∧ (digitChar d).isWhitespace = false := by
  interval_cases d <;> exact ⟨by decide, by decide, by decide⟩

theorem natCharsAux_mem :
    ∀ fuel n c, c ∈ natCharsAux fuel n → ∃ d, d < 10 ∧ c = digitChar d := by
  intro fuel
  induction fuel with
  | zero =>
      intro n c h
      simp [natCharsAux] at h
  | succ f ih =>
      intro n c h
      simp only [natCharsAux] at h
      by_cases hn : n = 0
      · rw [if_pos hn] at h
        simp at h
      · rw [if_neg hn] at h
        rcases List.mem_append.mp h with h1 | h2
        · exact ih _ _ h1
        · have hc : c = digitChar (n % 10) := by simpa using h2
          exact ⟨n % 10, Nat.mod_lt _ (by norm_num), hc⟩

theorem natChars_mem {n : ℕ} {c : Char} (h : c ∈ natChars n) :
    ∃ d, d < 10 ∧ c = digitChar d := by
  unfold natChars at h
  by_cases hn : n = 0
  · rw [if_pos hn] at h
    simp at h
    exact ⟨0, by norm_num, by rw [h]; decide⟩
  · rw [if_neg hn] at h
    exact natCharsAux_mem n n c h

theorem pad4_mem {l : List Char} {c : Char} (h : c ∈ pad4 l) : c = '0' ∨ c ∈ l := by
  unfold pad4 at h
  rcases List.mem_append.mp h with h1 | h2
  · exact Or.inl (List.eq_of_mem_replicate h1)
  · exact Or.inr h2

theorem formatFixed4_chars {q : ℚ} {c : Char} (h : c ∈ formatFixed4 q) :
    c = '-' ∨ c = '.' ∨ ∃ d, d < 10 ∧ c = digitChar d := by
  simp only [formatFixed4] at h
  rcases List.mem_append.mp h with h1 | h2
  · rcases List.mem_append.mp h1 with h3 | h4
    · split at h3
      · left
        simpa using h3
      · simp at h3
    · exact Or.inr (Or.inr (natChars_mem h4))
  · rcases List.mem_cons.mp h2 with h3 | h4
    · exact Or.inr (Or.inl h3)
    · rcases pad4_mem h4 with h5 | h5
      · exact Or.inr (Or.inr ⟨0, by norm_num, by rw [h5]; decide⟩)
      · exact Or.inr (Or.inr (natChars_mem h5))

theorem formatFixed4_no_colon (q : ℚ) : '：' ∉ formatFixed4 q := by
  intro h
  rcases formatFixed4_chars h with h1 | h1 | ⟨d, hd, h1⟩
  · exact absurd h1 (by decide)
  · exact absurd h1 (by decide)
  · exact absurd h1.symm (digitChar_val hd).2.1

theorem formatFixed4_not_ws {q : ℚ} {c : Char} (h : c ∈ formatFixed4 q) :
    c.isWhitespace = false := by
  rcases formatFixed4_chars h with h1 | h1 | ⟨d, hd, h1⟩
  · rw [h1]
    decide
  · rw [h1]
    decide
  · rw [h1]
    exact (digitChar_val hd).2.2

theorem natChars_no_dash (n : ℕ) : '-' ∉ natChars n := by
  intro h
  rcases natChars_mem h with ⟨d, hd, hc⟩
  exact (digitChar_val hd).1 hc.symm

theorem formatFixed4_count_dash (q : ℚ) : (formatFixed4 q).count '-' ≤ 1 := by
  simp only [formatFixed4]
  rw [List.count_append, List.count_append]
  have hsign : (if round (q * 10000) < 0 then ['-'] else ([] : List Char)).count '-' ≤ 1 := by
    split <;> decide
  have h2 : (natChars ((round (q * 10000)).natAbs / 10000)).count '-' = 0 :=
    List.count_eq_zero_of_not_mem (natChars_no_dash _)
  have h3 : ('.' :: pad4 (natChars ((round (q * 10000)).natAbs % 10000))).count '-' = 0 := by
    apply List.count_eq_zero_of_not_mem
    intro h
    rcases List.mem_cons.mp h with h1 | h1
    · exact absurd h1 (by decide)
    · rcases pad4_mem h1 with h5 | h5
      · exact absurd h5 (by decide)
      · exact natChars_no_dash _ h5
  omega

theorem dropWhile_id_of_forall {p : Char → Bool} {l : List Char}
    (h : ∀ c ∈ l, p c = false) : l.dropWhile p = l := by
  cases l with
  | nil => rfl
  | cons a l =>
      rw [List.dropWhile_cons, h a (List.mem_cons_self a l)]
      simp

theorem pyStrip_id {l : List Char} (h : ∀ c ∈ l, c.isWhitespace = false) : pyStrip l = l := by
  have h1 : l.dropWhile Char.isWhitespace = l := dropWhile_id_of_forall h
  have h2 : l.reverse.dropWhile Char.isWhitespace = l.reverse :=
    dropWhile_id_of_forall (fun c hc => h c (List.mem_reverse.mp hc))
  rw [pyStrip, h1, h2, List.reverse_reverse]

theorem splitOnChar_of_not_mem {c : Char} : ∀ {l : List Char}, c ∉ l → splitOnChar c l = [l] := by
  intro l
  induction l with
  | nil =>
      intro h
      rfl
  | cons a l ih =>
      intro h
      have ha : ¬ a = c := fun hac => h (by simp [hac])
      simp only [splitOnChar, if_neg ha, ih (fun hc => h (List.mem_cons_of_mem a hc))]

theorem splitOnChar_append (c : Char) : ∀ (l₁ l₂ : List Char), c ∉ l₁ →
    splitOnChar c (l₁ ++ c :: l₂) = l₁ :: splitOnChar c l₂ := by
  intro l₁
  induction l₁ with
  | nil =>
      intro l₂ h
      rw [List.nil_append]
      simp [splitOnChar]
  | cons a l₁ ih =>
      intro l₂ h
      have ha : ¬ a = c := fun hac => h (by simp [hac])
      rw [List.cons_append]
      simp only [splitOnChar, if_neg ha, ih l₂ (fun hc => h (List.mem_cons_of_mem a hc))]

theorem hasSub_placeholder_valid (q : ℚ) :
    hasSub "：--".toList (meanTextOf (some q)) = false := by
  by_contra hne
  have htrue : hasSub "：--".toList (meanTextOf (some q)) = true :=
    Bool.not_eq_false _ ▸ (Bool.of_not_eq_false hne)
  rcases (hasSub_iff _ _).mp htrue with ⟨l₁, l₂, heq⟩
  have hcount : (meanTextOf (some q)).count '-' ≤ 1 := by
    show ("选中区域平均值：".toList ++ formatFixed4 q).count '-' ≤ 1
    rw [List.count_append]
    have hl : ("选中区域平均值：".toList).count '-' = 0 := by decide
    have hf := formatFixed4_count_dash q
    omega
  rw [heq, List.count_append, List.count_append] at hcount
  have hpat : ("：--".toList).count '-' = 2 := by decide
  omega

theorem splitOnChar_meanText (q : ℚ) :
    splitOnChar '：' (meanTextOf (some q)) = ["选中区域平均值".toList, formatFixed4 q] := by
  have hlabel : "选中区域平均值：".toList = "选中区域平均值".toList ++ ['：'] := by decide
  show splitOnChar '：' ("选中区域平均值：".toList ++ formatFixed4 q) = _
  rw [hlabel, List.append_assoc,
    show (['：'] ++ formatFixed4 q : List Char) = '：' :: formatFixed4 q from rfl,
    splitOnChar_append '：' ("选中区域平均值".toList) (formatFixed4 q) (by decide),
    splitOnChar_of_not_mem (formatFixed4_no_colon q)]

/-- C8 (confirmed): invoking copy while the placeholder is displayed yields
the red "no valid data" hint and leaves the clipboard untouched; invoking
copy while a valid mean is displayed puts exactly the formatted 4-decimal
numeric string — the displayed text with its label prefix stripped — on the
clipboard, with the green success hint. -/
theorem c8_copy_outcomes (q : ℚ) (clipboard : List Char) :
    copy_result_to_clipboard (meanTextOf none) clipboard
      = { clipboard := clipboard,
          copy_hint := "暂无有效数据".toList,
          hint_color := HintColor.red } ∧
    copy_result_to_clipboard (meanTextOf (some q)) clipboard
      = { clipboard := formatFixed4 q,
          copy_hint := "复制成功".toList,
          hint_color := HintColor.green } := by
  constructor
  · have h : hasSub "：--".toList (meanTextOf none) = true := by decide
    simp only [copy_result_to_clipboard]
    rw [if_pos h]
  · have h := hasSub_placeholder_valid q
    have h2 : hasSub ['：', '-', '-'] (meanTextOf (some q)) = false := h
    simp only [copy_result_to_clipboard]
    rw [if_neg (by simp [h2]), splitOnChar_meanText]
    have hstrip : pyStrip (formatFixed4 q) = formatFixed4 q :=
      pyStrip_id (fun c hc => formatFixed4_not_ws hc)
    simp [hstrip]
